import Mathlib

/-!
Verification of the chess position-selection pipeline
(`src/chess/03_select_games.py` and sibling scripts) against its
natural-language specification.

The Python scripts delegate chess rules (move legality, FEN rendering,
check/mate detection) to the external `python-chess` library and engine
evaluation to an external UCI engine.  Following the spec's non-goals,
those external facts appear here as explicit fields of the board model
(`legalMoves`, `fenEpField`, per-ply status flags) or as hypotheses of
the theorems; everything implemented in the repository's own code is
translated directly.
-/

namespace ChessSel

/-- Piece colors, mirroring `chess.WHITE` / `chess.BLACK`. -/
inductive PieceColor
  | white
  | black
deriving DecidableEq

/-- Piece types, mirroring `chess.PAWN`, ..., `chess.KING`. -/
inductive PieceType
  | pawn
  | knight
  | bishop
  | rook
  | queen
  | king
deriving DecidableEq

/-- A piece as returned by `board.piece_at(square)`. -/
structure Piece where
  pieceType : PieceType
  color : PieceColor
deriving DecidableEq

/-- Game phases returned by `get_phase`. -/
inductive Phase
  | opening
  | middlegame
  | endgame
deriving DecidableEq

/-- A move in the sense of `chess.Move(from_square, to_square)`: the
constructor used by `normalize_en_passant` leaves `promotion = None`. -/
structure ChessMove where
  fromSq : Fin 64
  toSq : Fin 64
  promotion : Option PieceType
deriving DecidableEq

/-- Model of a `chess.Board` restricted to what the scripts read from it.
`pieceAt` is `board.piece_at`, `turn` is `board.turn`, `epSquare` is
`board.ep_square`, `legalMoves` is the list `board.legal_moves` computed
by the external python-chess library.  `placementField` and
`castlingField` are fields 0 and 2 of `board.fen()`, and `fenEpField` is
field 3 of `board.fen()` as rendered by the library (python-chess renders
it with its default `en_passant="legal"` policy). -/
structure Board where
  pieceAt : Fin 64 → Option Piece
  turn : PieceColor
  epSquare : Option (Fin 64)
  legalMoves : List ChessMove
  placementField : String
  castlingField : String
  fenEpField : String

/-- The `piece_values` dictionary of `get_material_count`; `.get` with
default 0 means the king (absent from the dictionary) counts 0. -/
def pieceValue : PieceType → Nat
  | PieceType.pawn => 1
  | PieceType.knight => 3
  | PieceType.bishop => 3
  | PieceType.rook => 5
  | PieceType.queen => 9
  | PieceType.king => 0

/-- `get_material_count`: sum piece values over all 64 squares, skipping
kings. -/
def get_material_count (b : Board) : Nat :=
  (List.finRange 64).foldl
    (fun acc s =>
      match b.pieceAt s with
      | some p => if p.pieceType ≠ PieceType.king then acc + pieceValue p.pieceType else acc
      | none => acc)
    0

/-- `board.pieces(chess.QUEEN, c)` is non-empty. -/
def has_queen (b : Board) (c : PieceColor) : Bool :=
  decide (∃ s : Fin 64, b.pieceAt s = some ⟨PieceType.queen, c⟩)

/-- `has_queens` in `get_phase`:
`bool(board.pieces(QUEEN, WHITE) or board.pieces(QUEEN, BLACK))`, i.e.
at least one queen of either color remains on the board. -/
def has_queens (b : Board) : Bool :=
  has_queen b PieceColor.white || has_queen b PieceColor.black

/-- `get_phase` from `03_select_games.py` (identical in `03_select.py`). -/
def get_phase (b : Board) (ply : Nat) : Phase :=
  if ply ≤ 20 ∧ has_queens b = true ∧ 26 ≤ get_material_count b then
    Phase.opening
  else if get_material_count b ≤ 14 then
    Phase.endgame
  else
    Phase.middlegame

/-- Example board refuting the "both sides still have a queen" reading of
the opening rule: White has queen d1, rooks a1/h1, pawns a2..h2 and king
e1 (material 27); Black has only the king e8 — no black queen. -/
def boardOneQueen : Board where
  pieceAt := fun s =>
    if s.val = 3 then some ⟨PieceType.queen, PieceColor.white⟩
    else if s.val = 0 ∨ s.val = 7 then some ⟨PieceType.rook, PieceColor.white⟩
    else if 8 ≤ s.val ∧ s.val ≤ 15 then some ⟨PieceType.pawn, PieceColor.white⟩
    else if s.val = 4 then some ⟨PieceType.king, PieceColor.white⟩
    else if s.val = 60 then some ⟨PieceType.king, PieceColor.black⟩
    else none
  turn := PieceColor.white
  epSquare := none
  legalMoves := []
  placementField := ""
  castlingField := ""
  fenEpField := "-"

/-- C2 counterexample: at ply 10 the board with a white queen but no black
queen and material 27 is classified `opening` by `get_phase`, although the
claim's "both sides still have a queen" condition fails (Black has no
queen).  So "opening iff ply ≤ 20 AND both sides still have a queen AND
material ≥ 26" is false on the code. -/
theorem c2_counterexample_one_queen_opening :
    get_phase boardOneQueen 10 = Phase.opening ∧
      has_queen boardOneQueen PieceColor.black = false := by
  constructor
  · decide
  · decide

/-- C2 (amended): `get_phase` returns `opening` iff ply ≤ 20 AND at least
one queen of either color remains on the board AND non-king material ≥ 26;
otherwise `endgame` iff material ≤ 14; otherwise `middlegame`. -/
theorem c2_phase_trichotomy (b : Board) (ply : Nat) :
    (get_phase b ply = Phase.opening ↔
      ply ≤ 20 ∧ has_queens b = true ∧ 26 ≤ get_material_count b) ∧
    (get_phase b ply = Phase.endgame ↔
      ¬(ply ≤ 20 ∧ has_queens b = true ∧ 26 ≤ get_material_count b) ∧
        get_material_count b ≤ 14) ∧
    (get_phase b ply = Phase.middlegame ↔
      ¬(ply ≤ 20 ∧ has_queens b = true ∧ 26 ≤ get_material_count b) ∧
        ¬(get_material_count b ≤ 14)) := by
  unfold get_phase
  split
  · rename_i h
    refine ⟨by simp [h], ?_, ?_⟩
    · simp [h]
    · simp [h]
  · rename_i h
    split
    · rename_i h2
      exact ⟨by simp [h], by simp [h, h2], by simp [h, h2]⟩
    · rename_i h2
      exact ⟨by simp [h], by simp [h, h2], by simp [h, h2]⟩

/-- `gap` in `classify_position`: `abs(best - top_moves[1][1])` when at
least two lines were returned, else 0.  The argument is the list of
centipawn scores of the returned lines, in engine multipv order. -/
def score_gap : List Int → Int
  | s1 :: s2 :: _ => |s1 - s2|
  | _ => 0

/-- `good_move_count` in `classify_position`: number of lines whose score
is within 50 centipawns of the best line's score. -/
def good_move_count : List Int → Nat
  | [] => 0
  | best :: rest => ((best :: rest).filter (fun s => |s - best| ≤ 50)).length

/-- `phase in ["opening", "middlegame"]`. -/
def phase_om (phase : Phase) : Prop :=
  phase = Phase.opening ∨ phase = Phase.middlegame

instance : DecidablePred phase_om := fun p => by
  unfold phase_om
  infer_instance

/-- `classify_position` from `03_select_games.py`, lines 156-245, over the
centipawn scores of the top engine lines (scores are already from the
mover's perspective; the engine analysis itself is external).
`isCheckCapture` is the externally computed `is_capture_or_check(board,
best_move)`.  Returns `(is_tactical, is_mate)`; an empty line list is the
`if not top_moves` default `(True, False)`. -/
def classify_position (scores : List Int) (phase : Phase) (isCheckCapture : Bool) :
    Bool × Bool :=
  match scores with
  | [] => (true, false)
  | best :: rest =>
    let gap := score_gap (best :: rest)
    let goodMoveCount := good_move_count (best :: rest)
    -- first if/elif chain: primary tactical criteria
    let primary : Bool × Bool :=
      if 10000 ≤ |best| then (true, true)
      else if (phase_om phase ∧ 100 ≤ gap) ∨ (phase = Phase.endgame ∧ 60 ≤ gap) ∨
          (isCheckCapture = true ∧ 100 < best) ∨ goodMoveCount ≤ 2 then
        (true, false)
      else (false, false)
    -- second if/elif chain: confirm quiet or default back to tactical
    let isTactical :=
      if primary.1 = false ∧
          ((phase_om phase ∧ gap ≤ 30) ∨ (phase = Phase.endgame ∧ gap ≤ 20)) ∧
          isCheckCapture = false ∧ 3 ≤ goodMoveCount then
        false
      else if primary.1 = false then
        true
      else
        primary.1
    (isTactical, primary.2)

/-- `classify_position` from `03_select.py`, lines 164-241, restricted to
its `is_tactical` result (it also returns the best move and a pawn-unit
evaluation).  Note the structural difference to `03_select_games.py`: the
tactical default for the ambiguous zone is nested INSIDE the small-gap
test, so a position with a medium gap that fails every primary tactical
criterion stays quiet. -/
def classify_position_03select (scores : List Int) (phase : Phase)
    (isCheckCapture : Bool) : Bool :=
  match scores with
  | [] => false
  | best :: rest =>
    let gap := score_gap (best :: rest)
    let goodMoveCount := good_move_count (best :: rest)
    let primary : Bool :=
      if 10000 ≤ |best| then true
      else if (phase_om phase ∧ 100 ≤ gap) ∨ (phase = Phase.endgame ∧ 60 ≤ gap) then true
      else if isCheckCapture = true ∧ 100 < best then true
      else if goodMoveCount ≤ 2 then true
      else false
    if primary = false then
      if (phase_om phase ∧ gap ≤ 30) ∨ (phase = Phase.endgame ∧ gap ≤ 20) then
        if isCheckCapture = false ∧ 3 ≤ goodMoveCount then false
        else true
      else primary
    else primary

/-- Mate-distance to centipawn mapping of `03_select.py` /
`03_select_games.py`: a saturating ±10000 sentinel. -/
def mate_cp_select (mateDist : Int) : Int :=
  if 0 < mateDist then 10000 else -10000

/-- Mate-distance to centipawn mapping of `04_create_questions_games.py`:
`30000 - mate_distance` for winning mates, `-30000 - mate_distance` for
losing ones. -/
def mate_cp_04games (mateDist : Int) : Int :=
  if 0 < mateDist then 30000 - mateDist else -30000 - mateDist

/-- Mate-distance to centipawn mapping of `06_create_questions.py`:
`30000 - abs(mate_in) * 100` / `-30000 + abs(mate_in) * 100`. -/
def mate_cp_06create (mateDist : Int) : Int :=
  if 0 < mateDist then 30000 - |mateDist| * 100 else -30000 + |mateDist| * 100

/-- C1: for every non-empty engine line list, `classify_position` of
`03_select_games.py` marks the position tactical exactly when one of the
four primary criteria holds (mate sentinel; phase-dependent gap; best move
is check/capture and wins more than 100cp; at most 2 good moves) or the
confirmed-quiet condition (small phase-dependent gap, best move not
check/capture, at least 3 good moves) fails; it marks it quiet exactly
when no primary criterion holds and the confirmed-quiet condition holds. -/
theorem c1_classify_tactical_iff (best : Int) (rest : List Int) (phase : Phase)
    (cc : Bool) :
    ((classify_position (best :: rest) phase cc).1 = true ↔
      ((10000 ≤ |best| ∨
        (phase_om phase ∧ 100 ≤ score_gap (best :: rest)) ∨
        (phase = Phase.endgame ∧ 60 ≤ score_gap (best :: rest)) ∨
        (cc = true ∧ 100 < best) ∨
        good_move_count (best :: rest) ≤ 2) ∨
       ¬(((phase_om phase ∧ score_gap (best :: rest) ≤ 30) ∨
          (phase = Phase.endgame ∧ score_gap (best :: rest) ≤ 20)) ∧
         cc = false ∧ 3 ≤ good_move_count (best :: rest)))) ∧
    ((classify_position (best :: rest) phase cc).1 = false ↔
      (¬(10000 ≤ |best| ∨
         (phase_om phase ∧ 100 ≤ score_gap (best :: rest)) ∨
         (phase = Phase.endgame ∧ 60 ≤ score_gap (best :: rest)) ∨
         (cc = true ∧ 100 < best) ∨
         good_move_count (best :: rest) ≤ 2) ∧
       ((phase_om phase ∧ score_gap (best :: rest) ≤ 30) ∨
        (phase = Phase.endgame ∧ score_gap (best :: rest) ≤ 20)) ∧
       cc = false ∧ 3 ≤ good_move_count (best :: rest))) := by
  simp only [classify_position]
  split_ifs <;> simp_all

/-- C9: the sibling scripts disagree.  On the score list `[0, -50, -50,
-50]` in a middlegame with a best move that is neither check nor capture
(gap 50, four good moves), `03_select.py` classifies the position quiet
while `03_select_games.py` classifies it tactical; and the three
mate-score-to-centipawn mappings pairwise disagree already at mate
distance 1 (10000 vs 29999 vs 29900). -/
theorem c9_sibling_divergence :
    (classify_position_03select [0, -50, -50, -50] Phase.middlegame false = false ∧
      (classify_position [0, -50, -50, -50] Phase.middlegame false).1 = true) ∧
    (mate_cp_select 1 ≠ mate_cp_04games 1 ∧
      mate_cp_select 1 ≠ mate_cp_06create 1 ∧
      mate_cp_04games 1 ≠ mate_cp_06create 1) := by
  refine ⟨⟨?_, ?_⟩, ?_, ?_, ?_⟩ <;> decide

/-- `chess.square_name`: file letter (a-h from square % 8) then rank digit
(1-8 from square / 8); square 0 is a1. -/
def squareName (sq : Fin 64) : String :=
  String.mk [Char.ofNat (97 + sq.val % 8), Char.ofNat (49 + sq.val / 8)]

/-- The candidate-square test of `normalize_en_passant`: for White,
`square + 7 == ep or square + 9 == ep`; for Black, `square - 7 == ep or
square - 9 == ep` (Python integer arithmetic, hence over ℤ). -/
def epOffsetOk (turn : PieceColor) (s ep : Fin 64) : Bool :=
  match turn with
  | PieceColor.white => decide (s.val + 7 = ep.val) || decide (s.val + 9 = ep.val)
  | PieceColor.black =>
      decide ((s.val : Int) - 7 = (ep.val : Int)) || decide ((s.val : Int) - 9 = (ep.val : Int))

/-- `normalize_en_passant` from `03_select_games.py` lines 107-128
(identical in `03_select.py`): return the en-passant square's name only if
some pawn of the side to move sits on a candidate square and the capture
move is in `board.legal_moves`, else `"-"`.  Python's
`if not board.ep_square` is falsy both for `None` and for square 0. -/
def normalize_en_passant (b : Board) : String :=
  match b.epSquare with
  | none => "-"
  | some ep =>
    if ep.val = 0 then "-"
    else if ((List.finRange 64).filter
          (fun s => decide (b.pieceAt s = some ⟨PieceType.pawn, b.turn⟩))).any
        (fun s => epOffsetOk b.turn s ep &&
          decide (ChessMove.mk s ep none ∈ b.legalMoves)) then
      squareName ep
    else "-"

/-- Field 1 of a FEN string: `"w"` or `"b"`. -/
def fen_turn_field (c : PieceColor) : String :=
  match c with
  | PieceColor.white => "w"
  | PieceColor.black => "b"

/-- `get_fen4`: the first 4 fields of `board.fen()` with the en-passant
field replaced by `normalize_en_passant`.  Modelled at field level (FEN
fields contain no spaces, so split/join is field concatenation). -/
def get_fen4 (b : Board) : String :=
  b.placementField ++ " " ++ fen_turn_field b.turn ++ " " ++ b.castlingField ++ " " ++
    normalize_en_passant b

/-- The first 4 fields of the full FEN written to the output CSV
(`position.fen = selected_board.fen()`), i.e. with the library-rendered
en-passant field, as recovered by `" ".join(row["fen"].split()[:4])` in
`load_existing_positions`. -/
def stored_fen4 (b : Board) : String :=
  b.placementField ++ " " ++ fen_turn_field b.turn ++ " " ++ b.castlingField ++ " " ++
    b.fenEpField

/-- The fixed salt `SALT = "chess_position_salt_v1"`. -/
def saltValue : String := "chess_position_salt_v1"

/-- `calculate_pos_id`'s first component:
`hashlib.sha256(f"{SALT}{fen4}").hexdigest()`.  SHA-256 itself lives in
the Python standard library, outside this repository; it is passed in as
an arbitrary function since every claim only needs that the same function
is applied to the key strings. -/
def calculate_pos_id (sha256hex : String → String) (fen4 : String) : String :=
  sha256hex (saltValue ++ fen4)

/-- The position id reconstructed by `load_existing_positions` from a CSV
row holding the full FEN of board `b`: SHA-256 of the salt concatenated
with the first 4 fields of the stored FEN. -/
def reconstruct_pos_id (sha256hex : String → String) (b : Board) : String :=
  calculate_pos_id sha256hex (stored_fen4 b)

theorem squareName_ne_dash (sq : Fin 64) : squareName sq ≠ "-" := by
  intro h
  have h2 := congrArg (fun s => s.data.length) h
  simp [squareName] at h2

theorem string_append_left_cancel (a x y : String) (h : a ++ x = a ++ y) : x = y := by
  cases a with
  | mk la =>
    cases x with
    | mk lx =>
      cases y with
      | mk ly =>
        have h2 : la ++ lx = la ++ ly := congrArg String.data h
        exact congrArg String.mk (List.append_cancel_left h2)

/-- C7: given a board whose raw en-passant square is `ep` (a real
en-passant square, hence non-zero), and given that the external legal-move
list only contains pawn moves onto `ep` from the two diagonal candidate
squares (true of chess), `normalize_en_passant` names `ep` iff some pawn
of the side to move can legally execute the en-passant capture; moreover
boards agreeing on the other three key fields and on the normalized
en-passant field produce equal 4-field keys, while a board whose capture
is legal keys differently from one where it is blocked. -/
theorem c7_en_passant_key (b : Board) (ep : Fin 64)
    (hep : b.epSquare = some ep)
    (hzero : ep.val ≠ 0)
    (hgeo : ∀ s : Fin 64, b.pieceAt s = some ⟨PieceType.pawn, b.turn⟩ →
      ChessMove.mk s ep none ∈ b.legalMoves → epOffsetOk b.turn s ep = true) :
    (normalize_en_passant b = squareName ep ↔
      ∃ s : Fin 64, b.pieceAt s = some ⟨PieceType.pawn, b.turn⟩ ∧
        ChessMove.mk s ep none ∈ b.legalMoves) ∧
    (∀ b1 b2 : Board, b1.placementField = b2.placementField → b1.turn = b2.turn →
      b1.castlingField = b2.castlingField →
      normalize_en_passant b1 = normalize_en_passant b2 →
      get_fen4 b1 = get_fen4 b2) ∧
    (∀ b1 b2 : Board, ∀ sq : Fin 64,
      b1.placementField = b2.placementField → b1.turn = b2.turn →
      b1.castlingField = b2.castlingField →
      normalize_en_passant b1 = squareName sq → normalize_en_passant b2 = "-" →
      get_fen4 b1 ≠ get_fen4 b2) := by
  refine ⟨?_, ?_, ?_⟩
  · unfold normalize_en_passant
    rw [hep]
    simp only
    rw [if_neg hzero]
    split_ifs with hany
    · rw [List.any_eq_true] at hany
      obtain ⟨s, hs, hcond⟩ := hany
      rw [List.mem_filter] at hs
      rw [Bool.and_eq_true] at hcond
      exact iff_of_true rfl ⟨s, of_decide_eq_true hs.2, of_decide_eq_true hcond.2⟩
    · refine iff_of_false (fun h => squareName_ne_dash ep h.symm) ?_
      rintro ⟨s, hp, hm⟩
      exact hany (List.any_eq_true.mpr
        ⟨s, List.mem_filter.mpr ⟨List.mem_finRange s, decide_eq_true hp⟩, by
          rw [Bool.and_eq_true]
          exact ⟨hgeo s hp hm, decide_eq_true hm⟩⟩)
  · intro b1 b2 h1 h2 h3 h4
    unfold get_fen4
    rw [h1, h2, h3, h4]
  · intro b1 b2 sq h1 h2 h3 hn1 hn2 heq
    unfold get_fen4 at heq
    rw [h1, h2, h3] at heq
    have hnn := string_append_left_cancel _ _ _ heq
    rw [hn1, hn2] at hnn
    exact squareName_ne_dash sq hnn

/-- Concrete board for the C7 witness: White to move, white pawn on b5
(square 33), en-passant square a6 (square 40), and the en-passant capture
b5xa6 is legal. -/
def epBoardCapturable : Board where
  pieceAt := fun s =>
    if s.val = 33 then some ⟨PieceType.pawn, PieceColor.white⟩ else none
  turn := PieceColor.white
  epSquare := some (40 : Fin 64)
  legalMoves := [ChessMove.mk (33 : Fin 64) (40 : Fin 64) none]
  placementField := "8/8/8/pP6/8/8/8/8"
  castlingField := "-"
  fenEpField := "a6"

/-- Same board but with the en-passant capture blocked (e.g. the pawn is
pinned): the legal-move list is empty although the flag is still set. -/
def epBoardBlocked : Board :=
  { epBoardCapturable with legalMoves := [], fenEpField := "-" }

/-- Same board with no en-passant flag at all. -/
def epBoardNoFlag : Board :=
  { epBoardCapturable with legalMoves := [], epSquare := none, fenEpField := "-" }

/-- Witness for C7 at a concrete input: the capturable board keys with
`a6`, the blocked board and the flagless board key identically, and the
capturable board keys differently from the blocked one. -/
theorem c7_en_passant_key_witness :
    normalize_en_passant epBoardCapturable = squareName (40 : Fin 64) ∧
    get_fen4 epBoardBlocked = get_fen4 epBoardNoFlag ∧
    get_fen4 epBoardCapturable ≠ get_fen4 epBoardBlocked := by
  have h := c7_en_passant_key epBoardCapturable (40 : Fin 64) rfl (by decide) (by decide)
  refine ⟨h.1.mpr ⟨(33 : Fin 64), by decide, by decide⟩, ?_, ?_⟩
  · exact h.2.1 epBoardBlocked epBoardNoFlag rfl rfl rfl (by decide)
  · exact h.2.2 epBoardCapturable epBoardBlocked (40 : Fin 64) rfl rfl rfl
      (h.1.mpr ⟨(33 : Fin 64), by decide, by decide⟩) (by decide)

/-- The data `sample_position_from_game` reads from the board after a ply
has been pushed.  The status flags and `legalMoveCount` are computed by
the external python-chess library (`board.is_checkmate()` etc.,
`len(list(board.legal_moves))`); `halfmoveClock` is `board.halfmove_clock`. -/
structure PlyInfo where
  isCheckmate : Bool
  isStalemate : Bool
  isInsufficientMaterial : Bool
  halfmoveClock : Nat
  legalMoveCount : Nat
deriving DecidableEq

/-- The eligibility filter of `sample_position_from_game` lines 272-278: a
ply is skipped when its resulting position is checkmate, stalemate, drawn
by insufficient material, or has halfmove clock ≥ 80. -/
def position_ineligible (p : PlyInfo) : Bool :=
  p.isCheckmate || p.isStalemate || p.isInsufficientMaterial ||
    decide (80 ≤ p.halfmoveClock)

/-- The reservoir-sampling loop of `sample_position_from_game` lines
267-284, over the enumerated list of per-ply board states.  `ec` is
`eligible_count`, `sel` the current `(selected_ply, selected_board)`, and
`draws k` models the value returned by the k-th call
`random.randint(1, k)` (so `draws k ∈ [1, k]` for a real RNG). -/
def sample_scan (draws : Nat → Nat) :
    List (Nat × PlyInfo) → Nat → Option (Nat × PlyInfo) → Nat × Option (Nat × PlyInfo)
  | [], ec, sel => (ec, sel)
  | x :: xs, ec, sel =>
    if position_ineligible x.2 then sample_scan draws xs ec sel
    else
      sample_scan draws xs (ec + 1)
        (if draws (ec + 1) = 1 then some (x.1 + 1, x.2) else sel)

/-- `sample_position_from_game` (lines 248-287 up to the selection; the
subsequent per-position analysis is handled by the other components):
returns the selected `(selected_ply, board)` or `none`.  An empty move
list returns `None` immediately; otherwise the scan starts from
`eligible_count = 0` and no selection. -/
def sample_position_from_game (plys : List PlyInfo) (draws : Nat → Nat) :
    Option (Nat × PlyInfo) :=
  if plys = [] then none
  else (sample_scan draws plys.enum 0 none).2

/-- The eligible plies, paired with their 0-based ply index. -/
def eligible_plys (plys : List PlyInfo) : List (Nat × PlyInfo) :=
  plys.enum.filter (fun x => !position_ineligible x.2)

/-- What the reservoir loop does on the already-filtered list of eligible
candidates: the i-th candidate (1-based, counting from `ec`) replaces the
current selection exactly when `draws (ec + i) = 1`. -/
def reservoir_pick (draws : Nat → Nat) :
    Nat → Option (Nat × PlyInfo) → List (Nat × PlyInfo) → Option (Nat × PlyInfo)
  | _, sel, [] => sel
  | ec, sel, x :: xs =>
      reservoir_pick draws (ec + 1)
        (if draws (ec + 1) = 1 then some (x.1 + 1, x.2) else sel) xs

/-- The largest index `i` with `ec < i ≤ ec + n` such that `draws i = 1`. -/
def last_hit_from (draws : Nat → Nat) (ec : Nat) : Nat → Option Nat
  | 0 => none
  | n + 1 => if draws (ec + (n + 1)) = 1 then some (ec + (n + 1)) else last_hit_from draws ec n

/-- The largest index `i ∈ [1, n]` with `draws i = 1`. -/
def last_hit (draws : Nat → Nat) (n : Nat) : Option Nat :=
  last_hit_from draws 0 n

theorem sample_scan_eq_pick (draws : Nat → Nat) (l : List (Nat × PlyInfo)) :
    ∀ ec sel, (sample_scan draws l ec sel).2 =
      reservoir_pick draws ec sel (l.filter (fun x => !position_ineligible x.2)) := by
  induction l with
  | nil => intro ec sel; rfl
  | cons x xs ih =>
    intro ec sel
    by_cases hx : position_ineligible x.2
    · simp [sample_scan, reservoir_pick, hx, ih]
    · simp [sample_scan, reservoir_pick, hx, ih]

theorem last_hit_from_bounds (draws : Nat → Nat) (ec : Nat) :
    ∀ n j, last_hit_from draws ec n = some j → ec + 1 ≤ j ∧ j ≤ ec + n := by
  intro n
  induction n with
  | zero => intro j h; simp [last_hit_from] at h
  | succ n ih =>
    intro j h
    unfold last_hit_from at h
    split at h
    · cases h
      omega
    · have := ih j h
      omega

theorem last_hit_from_step (draws : Nat → Nat) (ec n : Nat) :
    last_hit_from draws ec (n + 1) =
      if draws (ec + (n + 1)) = 1 then some (ec + (n + 1))
      else last_hit_from draws ec n := rfl

theorem last_hit_from_succ (draws : Nat → Nat) (ec : Nat) :
    ∀ n, last_hit_from draws ec (n + 1) =
      match last_hit_from draws (ec + 1) n with
      | some j => some j
      | none => if draws (ec + 1) = 1 then some (ec + 1) else none := by
  intro n
  induction n with
  | zero => simp [last_hit_from]
  | succ n ih =>
    have harith : ec + 1 + (n + 1) = ec + (n + 2) := by omega
    by_cases hd : draws (ec + (n + 2)) = 1
    · have hR : last_hit_from draws (ec + 1) (n + 1) = some (ec + 1 + (n + 1)) := by
        rw [last_hit_from_step, if_pos (by rw [harith]; exact hd)]
      rw [last_hit_from_step draws ec (n + 1), if_pos hd, hR]
      exact congrArg some (by omega)
    · have hR : last_hit_from draws (ec + 1) (n + 1) = last_hit_from draws (ec + 1) n := by
        rw [last_hit_from_step, if_neg (by rw [harith]; exact hd)]
      rw [last_hit_from_step draws ec (n + 1), if_neg hd, ih, hR]

theorem reservoir_pick_characterization (draws : Nat → Nat) (l : List (Nat × PlyInfo)) :
    ∀ ec sel, reservoir_pick draws ec sel l =
      match last_hit_from draws ec l.length with
      | none => sel
      | some j => (l[j - ec - 1]?).map (fun x => (x.1 + 1, x.2)) := by
  induction l with
  | nil => intro ec sel; rfl
  | cons x xs ih =>
    intro ec sel
    show reservoir_pick draws (ec + 1) _ xs = _
    rw [ih]
    rw [show (x :: xs).length = xs.length + 1 from rfl, last_hit_from_succ]
    cases hlh : last_hit_from draws (ec + 1) xs.length with
    | none =>
      by_cases hd : draws (ec + 1) = 1
      · simp only [hlh, if_pos hd]
        have h0 : ec + 1 - ec - 1 = 0 := by omega
        simp [h0]
      · simp only [hlh, if_neg hd]
    | some j =>
      have hb := last_hit_from_bounds draws (ec + 1) xs.length j hlh
      simp only [hlh]
      have h1 : j - ec - 1 = (j - ec - 2) + 1 := by omega
      have h2 : j - (ec + 1) - 1 = j - ec - 2 := by omega
      rw [h1, h2]
      simp

theorem sample_eq_pick (plys : List PlyInfo) (draws : Nat → Nat) :
    sample_position_from_game plys draws =
      reservoir_pick draws 0 none (eligible_plys plys) := by
  unfold sample_position_from_game
  split
  · rename_i h
    subst h
    rfl
  · exact sample_scan_eq_pick draws plys.enum 0 none

theorem sample_characterization (plys : List PlyInfo) (draws : Nat → Nat) :
    sample_position_from_game plys draws =
      match last_hit draws (eligible_plys plys).length with
      | none => none
      | some j => ((eligible_plys plys)[j - 1]?).map (fun x => (x.1 + 1, x.2)) := by
  rw [sample_eq_pick, reservoir_pick_characterization]
  unfold last_hit
  cases last_hit_from draws 0 (eligible_plys plys).length with
  | none => rfl
  | some j => simp

theorem mem_eligible_plys {plys : List PlyInfo} {x : Nat × PlyInfo}
    (h : x ∈ eligible_plys plys) :
    plys[x.1]? = some x.2 ∧ position_ineligible x.2 = false := by
  unfold eligible_plys at h
  rw [List.mem_filter] at h
  refine ⟨List.mem_enum_iff_getElem?.mp h.1, ?_⟩
  simpa using h.2

theorem sample_some_mem {plys : List PlyInfo} {draws : Nat → Nat} {k : Nat} {p : PlyInfo}
    (h : sample_position_from_game plys draws = some (k, p)) :
    ∃ j, (j, p) ∈ eligible_plys plys ∧ k = j + 1 := by
  rw [sample_characterization] at h
  cases hlh : last_hit draws (eligible_plys plys).length with
  | none =>
    rw [hlh] at h
    simp at h
  | some i =>
    rw [hlh] at h
    simp only [Option.map_eq_some'] at h
    obtain ⟨x, hx, hxe⟩ := h
    have hmem := List.getElem?_mem hx
    have hx1 : x.2 = p := congrArg Prod.snd hxe
    have hx2 : k = x.1 + 1 := (congrArg Prod.fst hxe).symm
    exact ⟨x.1, by rw [← hx1]; exact hmem, hx2⟩

theorem last_hit_isSome_of_first (draws : Nat → Nat) (h1 : draws 1 = 1) :
    ∀ n, last_hit draws (n + 1) ≠ none := by
  intro n
  induction n with
  | zero =>
    unfold last_hit
    rw [last_hit_from_step]
    simp [h1]
  | succ n ih =>
    unfold last_hit at ih ⊢
    rw [last_hit_from_step]
    split
    · simp
    · exact ih

/-- C8: the reservoir sampler of `sample_position_from_game`.  (a) The
result is fully characterized by the eligible plies (those whose position
is not checkmate, stalemate, insufficient material, nor halfmove clock
≥ 80): the i-th eligible candidate replaces the current selection exactly
when the i-th draw `random.randint(1, i)` equals 1, so the final selection
is the eligible candidate at the LAST draw index that came up 1.  (b) When
every draw lies in [1, i] (a real RNG), the result is `none` iff no ply is
eligible.  (c) Any returned selection is an eligible ply of the game,
returned with its 1-based ply index — in particular at most one position
is produced per invocation. -/
theorem c8_reservoir_sampling (plys : List PlyInfo) (draws : Nat → Nat)
    (hdraws : ∀ i, 1 ≤ i → 1 ≤ draws i ∧ draws i ≤ i) :
    (sample_position_from_game plys draws =
      match last_hit draws (eligible_plys plys).length with
      | none => none
      | some j => ((eligible_plys plys)[j - 1]?).map (fun x => (x.1 + 1, x.2))) ∧
    (sample_position_from_game plys draws = none ↔ eligible_plys plys = []) ∧
    (∀ k p, sample_position_from_game plys draws = some (k, p) →
      position_ineligible p = false ∧ 1 ≤ k ∧ plys[k - 1]? = some p) := by
  refine ⟨sample_characterization plys draws, ⟨?_, ?_⟩, ?_⟩
  · intro h
    by_contra hne
    obtain ⟨y, ys, hy⟩ : ∃ y ys, eligible_plys plys = y :: ys := by
      cases hel : eligible_plys plys with
      | nil => exact absurd hel hne
      | cons y ys => exact ⟨y, ys, rfl⟩
    have hlen : (eligible_plys plys).length = ys.length + 1 := by rw [hy]; rfl
    have h1 : draws 1 = 1 := by
      have := hdraws 1 (le_refl 1)
      omega
    rw [sample_characterization, hlen] at h
    cases hlh : last_hit draws (ys.length + 1) with
    | none => exact last_hit_isSome_of_first draws h1 ys.length hlh
    | some j =>
      rw [hlh] at h
      have hb := last_hit_from_bounds draws 0 (ys.length + 1) j hlh
      have hjl : j - 1 < (eligible_plys plys).length := by rw [hlen]; omega
      simp [List.getElem?_eq_getElem hjl] at h
  · intro h
    rw [sample_characterization, h]
    rfl
  · intro k p h
    obtain ⟨j, hmem, hk⟩ := sample_some_mem h
    have h2 := mem_eligible_plys hmem
    refine ⟨h2.2, by omega, ?_⟩
    rw [show k - 1 = j by omega]
    exact h2.1

/-- An eligible quiet ply used in witnesses. -/
def plyQuiet : PlyInfo :=
  { isCheckmate := false, isStalemate := false, isInsufficientMaterial := false
    halfmoveClock := 0, legalMoveCount := 20 }

/-- A checkmate ply (ineligible, no legal moves) used in witnesses. -/
def plyMate : PlyInfo :=
  { isCheckmate := true, isStalemate := false, isInsufficientMaterial := false
    halfmoveClock := 0, legalMoveCount := 0 }

/-- Witness for C8 at a concrete input: over the game
`[checkmate ply, quiet ply]` with every draw returning 1, the sampler
skips the checkmate ply and returns the quiet ply at 1-based index 2; on
the game consisting of the checkmate ply alone it returns `none` exactly
because no ply is eligible. -/
theorem c8_reservoir_sampling_witness :
    sample_position_from_game [plyMate, plyQuiet] (fun _ => 1) = some (2, plyQuiet) ∧
    (sample_position_from_game [plyMate] (fun _ => 1) = none ↔
      eligible_plys [plyMate] = []) := by
  have h := c8_reservoir_sampling [plyMate, plyQuiet] (fun _ => 1)
    (fun i hi => ⟨le_refl 1, hi⟩)
  have h2 := c8_reservoir_sampling [plyMate] (fun _ => 1)
    (fun i hi => ⟨le_refl 1, hi⟩)
  exact ⟨h.1.trans (by decide), h2.2.1⟩

/-- C10: because the eligibility filter excludes checkmate and stalemate
positions (and, by the rules of chess as implemented in the external
library, a position with no legal move is checkmate or stalemate), every
position returned by `sample_position_from_game` has at least one legal
move. -/
theorem c10_selected_position_has_legal_move (plys : List PlyInfo) (draws : Nat → Nat)
    (hrules : ∀ p ∈ plys, p.legalMoveCount = 0 →
      p.isCheckmate = true ∨ p.isStalemate = true) :
    ∀ k p, sample_position_from_game plys draws = some (k, p) →
      1 ≤ p.legalMoveCount := by
  intro k p h
  obtain ⟨j, hmem, _⟩ := sample_some_mem h
  have h2 := mem_eligible_plys hmem
  have hp : p ∈ plys := List.getElem?_mem h2.1
  by_contra hlt
  have h0 : p.legalMoveCount = 0 := by omega
  have hin := h2.2
  unfold position_ineligible at hin
  rcases hrules p hp h0 with hc | hc <;> simp [hc] at hin

/-- Witness for C10 at a concrete input: the single-eligible-ply game
returns the quiet ply, which has 20 ≥ 1 legal moves. -/
theorem c10_selected_position_has_legal_move_witness :
    1 ≤ plyQuiet.legalMoveCount :=
  c10_selected_position_has_legal_move [plyQuiet] (fun _ => 1) (by decide)
    1 plyQuiet (by decide)

/-- The five ELO buckets of `ELO_BUCKET_NAMES`. -/
inductive EloBucket
  | b0_1400
  | b1400_1800
  | b1800_2200
  | b2200_2600
  | b2600plus
deriving DecidableEq, Fintype

/-- A quota cell of the stratified allocator: the key
`selected[elo_bucket][phase][type][color]`. -/
structure Cell where
  bucket : EloBucket
  phase : Phase
  isTactical : Bool
  color : PieceColor
deriving DecidableEq

instance : Fintype Phase :=
  ⟨⟨{Phase.opening, Phase.middlegame, Phase.endgame}, by decide⟩, fun x => by cases x <;> decide⟩

instance : Fintype PieceColor :=
  ⟨⟨{PieceColor.white, PieceColor.black}, by decide⟩, fun x => by cases x <;> decide⟩

instance : Fintype Cell := .ofEquiv (EloBucket × Phase × Bool × PieceColor)
  { toFun := fun x => ⟨x.1, x.2.1, x.2.2.1, x.2.2.2⟩
    invFun := fun c => ⟨c.bucket, c.phase, c.isTactical, c.color⟩
    left_inv := fun _ => rfl
    right_inv := fun _ => rfl }

/-- What the main loop of `03_select_games.py` reads off one sampled
position: its content-hash id, its quota cell (ELO bucket, phase,
tactical/quiet, side to move) and whether it is a mate-in-PV position. -/
structure SampledPos where
  posId : String
  cell : Cell
  isMate : Bool
deriving DecidableEq

/-- The mutable state of the selection run: `counts c` is
`len(selected[...])` for cell `c` (including rows reloaded from the CSV),
`existingIds` is `existing_pos_ids`, `mateCount` is
`mate_positions_count`, and `accepted` lists the positions accepted (and
hence appended to the output CSV) since the current process started. -/
structure SelState where
  counts : Cell → Nat
  existingIds : List String
  mateCount : Nat
  accepted : List SampledPos

/-- The body of the while loop in `main` (lines 550-581 of
`03_select_games.py`) for one sampled position: skip if the id already
exists; skip if it is a mate position and the mate cap is reached; accept
into its cell only when the cell's current count is strictly below its
target, recording the id, bumping the mate counter for mates, and
appending the position to the output buffer. -/
def process_sampled (targets : Cell → Nat) (maxMate : Nat) (s : SelState)
    (p : SampledPos) : SelState :=
  if p.posId ∈ s.existingIds then s
  else if p.isMate = true ∧ maxMate ≤ s.mateCount then s
  else if s.counts p.cell < targets p.cell then
    { counts := fun c => if c = p.cell then s.counts c + 1 else s.counts c
      existingIds := p.posId :: s.existingIds
      mateCount := if p.isMate then s.mateCount + 1 else s.mateCount
      accepted := s.accepted ++ [p] }
  else s

/-- One process run: fold the loop body over the stream of sampled
positions (in the order games are consumed). -/
def runSelection (targets : Cell → Nat) (maxMate : Nat) (s : SelState)
    (ps : List SampledPos) : SelState :=
  ps.foldl (process_sampled targets maxMate) s

/-- Restarting from the output CSV (`load_existing_positions` plus
`mate_positions_count = 0` in `main`): position ids and per-cell counts
are reloaded, but `is_mate` is not a CSV column — every reloaded row gets
`is_mate=False` — so the mate counter restarts at 0, and the new run's
append buffer starts empty. -/
def load_resume_state (s : SelState) : SelState :=
  { counts := s.counts, existingIds := s.existingIds, mateCount := 0, accepted := [] }

theorem process_counts_mono (targets : Cell → Nat) (maxMate : Nat) (s : SelState)
    (p : SampledPos) (c : Cell) :
    s.counts c ≤ (process_sampled targets maxMate s p).counts c := by
  unfold process_sampled
  split_ifs <;> simp <;> split_ifs <;> omega

theorem process_counts_le (targets : Cell → Nat) (maxMate : Nat) (s : SelState)
    (p : SampledPos) (hinit : ∀ c, s.counts c ≤ targets c) :
    ∀ c, (process_sampled targets maxMate s p).counts c ≤ targets c := by
  intro c
  unfold process_sampled
  split_ifs with h1 h2 h3 h4
  · exact hinit c
  · exact hinit c
  · show (if c = p.cell then s.counts c + 1 else s.counts c) ≤ targets c
    split_ifs with hc
    · subst hc
      omega
    · exact hinit c
  · show (if c = p.cell then s.counts c + 1 else s.counts c) ≤ targets c
    split_ifs with hc
    · subst hc
      omega
    · exact hinit c
  · exact hinit c

theorem run_counts_le (targets : Cell → Nat) (maxMate : Nat) :
    ∀ (ps : List SampledPos) (s : SelState), (∀ c, s.counts c ≤ targets c) →
      ∀ c, (runSelection targets maxMate s ps).counts c ≤ targets c := by
  intro ps
  induction ps with
  | nil => intro s h c; exact h c
  | cons p ps ih =>
    intro s h c
    exact ih (process_sampled targets maxMate s p)
      (process_counts_le targets maxMate s p h) c

theorem run_counts_mono (targets : Cell → Nat) (maxMate : Nat) :
    ∀ (ps : List SampledPos) (s : SelState) (c : Cell),
      s.counts c ≤ (runSelection targets maxMate s ps).counts c := by
  intro ps
  induction ps with
  | nil => intro s c; exact le_refl _
  | cons p ps ih =>
    intro s c
    exact le_trans (process_counts_mono targets maxMate s p c)
      (ih (process_sampled targets maxMate s p) c)

/-- C3: a sampled position is only accepted into its cell while the cell's
count is strictly below its target (the `current_count < target` guard),
so starting from any state whose counts respect the targets — a fresh run
starts at zero — every cell count stays ≤ its target throughout the run,
counts never decrease, and the total number of held positions never
exceeds the sum of all cell targets. -/
theorem c3_quota_invariant (targets : Cell → Nat) (maxMate : Nat) (s : SelState)
    (ps : List SampledPos) (hinit : ∀ c, s.counts c ≤ targets c) :
    (∀ c, (runSelection targets maxMate s ps).counts c ≤ targets c) ∧
    (∀ c, s.counts c ≤ (runSelection targets maxMate s ps).counts c) ∧
    Finset.univ.sum (runSelection targets maxMate s ps).counts ≤
      Finset.univ.sum targets := by
  refine ⟨run_counts_le targets maxMate ps s hinit, run_counts_mono targets maxMate ps s, ?_⟩
  exact Finset.sum_le_sum (fun c _ => run_counts_le targets maxMate ps s hinit c)

/-- A concrete quota cell used in witnesses. -/
def cellExample : Cell :=
  { bucket := EloBucket.b1800_2200, phase := Phase.middlegame
    isTactical := true, color := PieceColor.white }

/-- The state a fresh (non-resumed) run starts from. -/
def emptySelState : SelState :=
  { counts := fun _ => 0, existingIds := [], mateCount := 0, accepted := [] }

/-- A non-mate sampled position used in witnesses. -/
def posA : SampledPos := { posId := "a", cell := cellExample, isMate := false }

/-- Witness for C3 at a concrete input: processing one position from the
empty state with all targets 1 leaves the example cell within its target. -/
theorem c3_quota_invariant_witness :
    (runSelection (fun _ => 1) 1 emptySelState [posA]).counts cellExample ≤ 1 :=
  (c3_quota_invariant (fun _ => 1) 1 emptySelState [posA]
    (fun _ => Nat.zero_le 1)).1 cellExample

theorem process_accepted_cases (targets : Cell → Nat) (maxMate : Nat) (s : SelState)
    (p q : SampledPos)
    (h : q ∈ (process_sampled targets maxMate s p).accepted) :
    q ∈ s.accepted ∨ (q = p ∧ p.posId ∉ s.existingIds) := by
  unfold process_sampled at h
  split_ifs at h with h1 h2 h3 h4
  · exact Or.inl h
  · exact Or.inl h
  · rcases List.mem_append.mp h with hq | hq
    · exact Or.inl hq
    · exact Or.inr ⟨List.mem_singleton.mp hq, h1⟩
  · rcases List.mem_append.mp h with hq | hq
    · exact Or.inl hq
    · exact Or.inr ⟨List.mem_singleton.mp hq, h1⟩
  · exact Or.inl h

theorem process_ids_superset (targets : Cell → Nat) (maxMate : Nat) (s : SelState)
    (p : SampledPos) (id : String) (h : id ∈ s.existingIds) :
    id ∈ (process_sampled targets maxMate s p).existingIds := by
  unfold process_sampled
  split_ifs <;> simp [h]

theorem run_accepted_fresh (targets : Cell → Nat) (maxMate : Nat) :
    ∀ (ps : List SampledPos) (s : SelState) (q : SampledPos),
      q ∈ (runSelection targets maxMate s ps).accepted →
        q ∈ s.accepted ∨ q.posId ∉ s.existingIds := by
  intro ps
  induction ps with
  | nil => intro s q h; exact Or.inl h
  | cons p ps ih =>
    intro s q h
    rcases ih (process_sampled targets maxMate s p) q h with hq | hq
    · rcases process_accepted_cases targets maxMate s p q hq with hq2 | hq2
      · exact Or.inl hq2
      · refine Or.inr ?_
        rw [hq2.1]
        exact hq2.2
    · refine Or.inr ?_
      intro hc
      exact hq (process_ids_superset targets maxMate s p q.posId hc)

/-- C4: (a) provided python-chess's `board.fen()` renders the en-passant
field with its default "only when a legal en-passant capture exists"
policy — which is exactly `normalize_en_passant` — the position id
reconstructed by `load_existing_positions` from a stored row (SHA-256 of
the salt concatenated with the first four fields of the stored FEN)
equals the id originally computed from the canonical normalized 4-field
key; (b) in a run starting with an empty append buffer, every position
accepted (hence emitted) during the run has an id that was NOT in the
reloaded id set: a sampled position whose id is already present is
silently skipped, so none of the K reloaded identifiers is ever re-emitted. -/
theorem c4_resume_no_reemit (sha256hex : String → String) :
    (∀ b : Board, b.fenEpField = normalize_en_passant b →
      reconstruct_pos_id sha256hex b = calculate_pos_id sha256hex (get_fen4 b)) ∧
    (∀ (targets : Cell → Nat) (maxMate : Nat) (s : SelState) (ps : List SampledPos),
      s.accepted = [] →
        ∀ q ∈ (runSelection targets maxMate s ps).accepted,
          q.posId ∉ s.existingIds) := by
  constructor
  · intro b hb
    unfold reconstruct_pos_id calculate_pos_id stored_fen4 get_fen4
    rw [hb]
  · intro targets maxMate s ps hemp q hq
    rcases run_accepted_fresh targets maxMate ps s q hq with h | h
    · rw [hemp] at h
      exact absurd h (List.not_mem_nil q)
    · exact h

/-- A resumed-run state with one previously emitted id. -/
def resumedState : SelState :=
  { counts := fun _ => 0, existingIds := ["old"], mateCount := 0, accepted := [] }

/-- A fresh sampled position whose id is not among the reloaded ones. -/
def posNew : SampledPos := { posId := "new", cell := cellExample, isMate := false }

/-- Witness for C4 at concrete inputs: the id of the capturable
en-passant example board reconstructs identically (using the identity
function in place of the external SHA-256), and the position accepted by
a resumed run was not among the reloaded identifiers. -/
theorem c4_resume_no_reemit_witness :
    reconstruct_pos_id (fun str => str) epBoardCapturable =
      calculate_pos_id (fun str => str) (get_fen4 epBoardCapturable) ∧
    posNew.posId ∉ resumedState.existingIds := by
  have h := c4_resume_no_reemit (fun str => str)
  refine ⟨h.1 epBoardCapturable (by decide), ?_⟩
  exact h.2 (fun _ => 1) 1 resumedState [posNew] rfl posNew (by decide)

theorem process_mate_le (targets : Cell → Nat) (maxMate : Nat) (s : SelState)
    (p : SampledPos) (h : s.mateCount ≤ maxMate) :
    (process_sampled targets maxMate s p).mateCount ≤ maxMate := by
  unfold process_sampled
  split_ifs with h1 h2 h3 h4
  · exact h
  · exact h
  · show s.mateCount + 1 ≤ maxMate
    rcases Nat.lt_or_ge s.mateCount maxMate with hlt | hge
    · omega
    · exact absurd ⟨h4, hge⟩ h2
  · exact h
  · exact h

theorem process_mate_balance (targets : Cell → Nat) (maxMate : Nat) (s : SelState)
    (p : SampledPos) :
    (process_sampled targets maxMate s p).accepted.countP (fun q => q.isMate) +
        s.mateCount =
      s.accepted.countP (fun q => q.isMate) +
        (process_sampled targets maxMate s p).mateCount := by
  unfold process_sampled
  split_ifs with h1 h2 h3 h4
  · rfl
  · rfl
  · show (s.accepted ++ [p]).countP (fun q => q.isMate) + s.mateCount =
      s.accepted.countP (fun q => q.isMate) + (s.mateCount + 1)
    rw [List.countP_append]
    simp [List.countP_cons, h4]
    omega
  · show (s.accepted ++ [p]).countP (fun q => q.isMate) + s.mateCount =
      s.accepted.countP (fun q => q.isMate) + s.mateCount
    rw [List.countP_append]
    have : p.isMate = false := by
      cases hm : p.isMate
      · rfl
      · exact absurd hm h4
    simp [List.countP_cons, this]
  · rfl

/-- C5 (amended): within one process run the mate counter never exceeds
the cap — a sampled mate position is skipped whenever the counter has
reached the cap — and the counter rises exactly with the mate positions
accepted during the run; hence a run starting with `mateCount = 0` and an
empty buffer (as both fresh and resumed runs do) accepts at most `maxMate`
mate positions.  The cap does NOT bound mates accumulated across resumes,
because `load_existing_positions` reloads every row with `is_mate=False`
(see the counterexample). -/
theorem c5_mate_cap_per_run (targets : Cell → Nat) (maxMate : Nat) (s : SelState)
    (ps : List SampledPos) (hcap : s.mateCount ≤ maxMate) :
    (runSelection targets maxMate s ps).mateCount ≤ maxMate ∧
    ((runSelection targets maxMate s ps).accepted.countP (fun q => q.isMate) +
        s.mateCount =
      s.accepted.countP (fun q => q.isMate) +
        (runSelection targets maxMate s ps).mateCount) ∧
    (s.accepted = [] → s.mateCount = 0 →
      (runSelection targets maxMate s ps).accepted.countP (fun q => q.isMate) ≤
        maxMate) := by
  have main : ∀ (ps : List SampledPos) (s : SelState), s.mateCount ≤ maxMate →
      (runSelection targets maxMate s ps).mateCount ≤ maxMate ∧
      ((runSelection targets maxMate s ps).accepted.countP (fun q => q.isMate) +
          s.mateCount =
        s.accepted.countP (fun q => q.isMate) +
          (runSelection targets maxMate s ps).mateCount) := by
    intro ps
    induction ps with
    | nil => intro s h; exact ⟨h, rfl⟩
    | cons p ps ih =>
      intro s h
      have hstep := process_mate_balance targets maxMate s p
      have hle := process_mate_le targets maxMate s p h
      obtain ⟨hrec1, hrec2⟩ := ih (process_sampled targets maxMate s p) hle
      have hcons : runSelection targets maxMate s (p :: ps) =
          runSelection targets maxMate (process_sampled targets maxMate s p) ps := rfl
      rw [hcons]
      exact ⟨hrec1, by omega⟩
  have h2 := main ps s hcap
  refine ⟨h2.1, h2.2, ?_⟩
  intro hemp hzero
  have := h2.2
  rw [hemp, hzero] at this
  simp at this
  omega

/-- First mate position. -/
def mateP1 : SampledPos := { posId := "m1", cell := cellExample, isMate := true }

/-- Second mate position. -/
def mateP2 : SampledPos := { posId := "m2", cell := cellExample, isMate := true }

/-- The first run of the C5 counterexample: cap 1, targets 2, processing
two mate positions — the second is skipped by the cap. -/
def c5run1 : SelState := runSelection (fun _ => 2) 1 emptySelState [mateP1, mateP2]

/-- The resumed second run of the C5 counterexample: the mate counter
restarts at 0 (is_mate is not persisted), so another mate is accepted. -/
def c5run2 : SelState := runSelection (fun _ => 2) 1 (load_resume_state c5run1) [mateP2]

/-- C5 counterexample: with a global mate cap of 1, a run accepts one mate
position, and after a resume a further mate position is accepted, so the
artifact holds 2 > 1 mate positions — the cap is exceeded across a
resumed run, refuting the claim "including runs resumed from an existing
output artifact". -/
theorem c5_mate_cap_counterexample :
    c5run1.accepted.countP (fun q => q.isMate) = 1 ∧
    c5run2.accepted.countP (fun q => q.isMate) = 1 ∧
    1 < c5run1.accepted.countP (fun q => q.isMate) +
      c5run2.accepted.countP (fun q => q.isMate) := by
  refine ⟨?_, ?_, ?_⟩ <;> decide

/-- Witness for C5 (amended) at a concrete input: the first
counterexample run itself never drives the mate counter above the cap. -/
theorem c5_mate_cap_per_run_witness :
    (runSelection (fun _ => 2) 1 emptySelState [mateP1, mateP2]).mateCount ≤ 1 :=
  (c5_mate_cap_per_run (fun _ => 2) 1 emptySelState [mateP1, mateP2]
    (Nat.zero_le 1)).1

/-- The private flag of `04_create_questions_games.py` line 262:
`int(pos["hash_bucket"]) >= 80`. -/
def is_private_04games (hashBucket : Nat) : Bool :=
  decide (80 ≤ hashBucket)

/-- Python lexicographic string comparison `s < t` on character codes. -/
def pyStrLt : List Char → List Char → Bool
  | [], [] => false
  | [], _ :: _ => true
  | _ :: _, [] => false
  | a :: as, b :: bs =>
    if a.toNat < b.toNat then true
    else if b.toNat < a.toNat then false
    else pyStrLt as bs

/-- The private flag of `04_format_questions.py` line 35:
`pos['hash_bucket'] >= '80'` — a PYTHON STRING comparison (the CSV field
is read as a string), i.e. `not (s < "80")` lexicographically. -/
def is_private_04format (hashBucketStr : String) : Bool :=
  !pyStrLt hashBucketStr.data "80".data

/-- How the hash bucket is serialized into the CSV: `str(hash_bucket)`. -/
def csv_hash_bucket_field (hashBucket : Nat) : String :=
  toString hashBucket

/-- C6 (code bug in `04_format_questions.py`): for shard bucket 9 the
integer comparison of `04_create_questions_games.py` yields public, as the
claim states, but the string comparison of `04_format_questions.py` yields
private because `"9" >= "80"` lexicographically — contradicting that
script's own comment ("bucket >= 80 is private") and its printed
public/private counts, which use integer comparisons.  The third conjunct
confirms the integer-comparison script follows the claimed threshold for
every bucket. -/
theorem c6_private_flag_divergence :
    is_private_04games 9 = false ∧
    is_private_04format (csv_hash_bucket_field 9) = true ∧
    (∀ b : Nat, is_private_04games b = true ↔ 80 ≤ b) := by
  refine ⟨by decide, by decide, fun b => by simp [is_private_04games]⟩

end ChessSel
